import Mathlib

/- Shallow embedding of src/tide.py (process_tidal_data).

   Conventions:
   * float64 arithmetic is idealised as exact rational arithmetic (ℚ);
   * pandas timestamps ('datetime' column) are rationals counting seconds;
   * the library routines the script calls (scipy.signal.savgol_filter,
     scipy.signal.find_peaks, and the numpy argsort behind
     pandas.DataFrame.sort_values) are embedded from their reference
     algorithms, since the script's behaviour on a series is exactly theirs;
   * a computation that pandas turns into NaN, or that raises an uncaught
     Python exception, is modelled as Option.none at the point where the
     script's result becomes unavailable. -/

/-- one row of the merged frame: 'datetime' (seconds since the epoch) and
    'Current (mA)' (src/tide.py line 23). -/
structure Sample where
  t : ℚ
  v : ℚ
deriving DecidableEq, Inhabited

/-- the linear unit conversion shape used on src/tide.py line 37:
    scale * x + offset. -/
def convert (scale offset x : ℚ) : ℚ := scale * x + offset

/-- Modelled from the spec: no inverse conversion exists in src/tide.py; the
    spec's round-trip law needs one, so it is taken as the inverse of the
    linear map, (y - offset) / scale. -/
def convert_inverse (scale offset y : ℚ) : ℚ := (y - offset) / scale

/-- the Altitude column (src/tide.py line 37): y = 4.51 * x - 36.4 applied to
    the 'Current (mA)' channel. -/
def altitude (s : Sample) : ℚ := convert (451/100) (-182/5) s.v

/-- pandas diff().dropna() on a timestamp column followed by
    dt.total_seconds() / 3600 (src/tide.py lines 59-60): successive
    differences, each converted to hours. -/
def tideDeltasHours (ts : List ℚ) : List ℚ :=
  (List.zipWith (fun a b => a - b) ts.tail ts).map (fun d => d / 3600)

/-- pandas Series.mean (src/tide.py lines 62-63): NaN on an empty series,
    modelled as none. -/
def seriesMean (l : List ℚ) : Option ℚ :=
  if l.isEmpty then none else some (l.sum / l.length)

/-- mean time between consecutive tides of one type (src/tide.py
    lines 59-63). -/
def meanTideInterval (ts : List ℚ) : Option ℚ := seriesMean (tideDeltasHours ts)

/-- pandas Series.min (src/tide.py line 76): NaN on an empty selection,
    modelled as none. -/
def seriesMin (l : List ℚ) : Option ℚ :=
  match l with
  | [] => none
  | x :: xs => some (xs.foldl min x)

/-- the hard-coded trough validity floor (src/tide.py line 66:
    min_tide_threshold = -4). -/
def minTideThreshold : ℚ := -4

/-- the Altitude values at the trough positions that pass the floor
    (src/tide.py lines 73-74: the boolean mask valid_troughs and the
    selection troughs[valid_troughs]). -/
def validTroughValues (alts : List ℚ) (troughs : List ℕ) : List ℚ :=
  (troughs.map (fun i => alts.getD i 0)).filter (fun a => minTideThreshold ≤ a)

/-- min valid low tide value (src/tide.py line 76).  none models the NaN that
    pandas min returns on an empty selection; on the very next line the
    script's idxmin raises an uncaught ValueError in that case, so the
    statistic is never reported. -/
def minLowTideValue (alts : List ℚ) (troughs : List ℕ) : Option ℚ :=
  seriesMin (validTroughValues alts troughs)

lemma foldl_min_le_init (xs : List ℚ) (a : ℚ) : xs.foldl min a ≤ a := by
  induction xs generalizing a with
  | nil => simp
  | cons x xs ih =>
      simpa using le_trans (ih (min a x)) (min_le_left a x)

lemma foldl_min_le_mem (xs : List ℚ) (a : ℚ) :
    ∀ x ∈ xs, xs.foldl min a ≤ x := by
  induction xs generalizing a with
  | nil => simp
  | cons y ys ih =>
      intro x hx
      rcases List.mem_cons.mp hx with rfl | hx
      · simpa using le_trans (foldl_min_le_init ys (min a x)) (min_le_right a x)
      · simpa using ih (min a y) x hx

lemma foldl_min_mem (xs : List ℚ) (a : ℚ) :
    xs.foldl min a = a ∨ xs.foldl min a ∈ xs := by
  induction xs generalizing a with
  | nil => simp
  | cons y ys ih =>
      simp only [List.foldl_cons]
      rcases ih (min a y) with h | h
      · rw [h]
        rcases min_cases a y with ⟨hm, _⟩ | ⟨hm, _⟩
        · exact Or.inl hm
        · exact Or.inr (by simp [hm])
      · exact Or.inr (List.mem_cons_of_mem y h)

lemma seriesMin_eq_none_iff (l : List ℚ) : seriesMin l = none ↔ l = [] := by
  cases l <;> simp [seriesMin]

lemma seriesMin_spec (l : List ℚ) (m : ℚ) (h : seriesMin l = some m) :
    m ∈ l ∧ ∀ x ∈ l, m ≤ x := by
  cases l with
  | nil => simp [seriesMin] at h
  | cons x xs =>
      simp only [seriesMin, Option.some.injEq] at h
      subst h
      constructor
      · rcases foldl_min_mem xs x with h | h
        · simp [h]
        · exact List.mem_cons_of_mem x h
      · intro y hy
        rcases List.mem_cons.mp hy with rfl | hy
        · exact foldl_min_le_init xs y
        · exact foldl_min_le_mem xs x y hy

lemma telescope_sum (rest : List ℚ) (a : ℚ) :
    (List.zipWith (fun x y => x - y) rest (a :: rest)).sum = rest.getLastD a - a := by
  induction rest generalizing a with
  | nil => simp
  | cons b r ih =>
      rw [List.zipWith_cons_cons, List.sum_cons, ih b, List.getLastD_cons]
      ring

/-- the claim's id is C9.  Unit conversion: the Altitude column is the linear
    map with scale 4.51 and offset -36.4 applied to the raw current channel,
    and for every coefficient pair with scale ≠ 0 the conversion is a left
    inverse of the (spec-modelled) inverse conversion: convert
    (convert_inverse x) = x exactly. -/
theorem unit_conversion_round_trip (scale offset x : ℚ) (h : scale ≠ 0) :
    (∀ s : Sample, altitude s = convert (451/100) (-182/5) s.v) ∧
      convert scale offset (convert_inverse scale offset x) = x := by
  refine ⟨fun s => rfl, ?_⟩
  field_simp [convert, convert_inverse]

/-- witness for the C9 theorem at the script's own coefficients and x = 7. -/
theorem unit_conversion_round_trip_witness :
    convert (451/100) (-182/5) (convert_inverse (451/100) (-182/5) 7) = 7 :=
  (unit_conversion_round_trip (451/100) (-182/5) 7 (by norm_num)).2

lemma sum_map_div (l : List ℚ) (c : ℚ) :
    (l.map (fun d => d / c)).sum = l.sum / c := by
  induction l with
  | nil => simp
  | cons x xs ih => simp [ih]; ring

lemma tideDeltas_len (a : ℚ) (rest : List ℚ) :
    (tideDeltasHours (a :: rest)).length = rest.length := by
  simp [tideDeltasHours]

lemma tideDeltas_sum (a : ℚ) (rest : List ℚ) :
    (tideDeltasHours (a :: rest)).sum = (rest.getLastD a - a) / 3600 := by
  simp only [tideDeltasHours, List.tail_cons, sum_map_div, telescope_sum]

/-- the claim's id is C4 (amended theorem).  The mean tidal interval is the
    average of the successive differences of the (ascending) timestamps in
    hours, which telescopes to (last - first) / 3600 / (n - 1); with fewer
    than 2 extrema of a type the script's pandas mean of an empty series is
    NaN (none here) - the NaN flows into the statistics table and no
    InsufficientDataError (or any error) is reported. -/
theorem mean_interval_spec (ts : List ℚ) :
    (ts.length < 2 → meanTideInterval ts = none) ∧
      (2 ≤ ts.length →
        meanTideInterval ts =
          some ((ts.getLastD 0 - ts.headD 0) / 3600 / ((ts.length - 1 : ℕ) : ℚ))) := by
  constructor
  · intro h
    rcases ts with _ | ⟨a, _ | ⟨b, r⟩⟩
    · rfl
    · rfl
    · simp at h
      omega
  · intro h
    rcases ts with _ | ⟨a, _ | ⟨b, r⟩⟩
    · simp at h
    · simp at h
    · have hlen := tideDeltas_len a (b :: r)
      have hsum := tideDeltas_sum a (b :: r)
      have hne : tideDeltasHours (a :: b :: r) ≠ [] := by
        intro hnil
        rw [hnil] at hlen
        simp at hlen
      unfold meanTideInterval seriesMean
      rw [if_neg (by simpa [List.isEmpty_iff] using hne)]
      rw [hsum, hlen]
      have hlast := List.getLast?_eq_getLast (b :: r) (by simp)
      simp [List.getLastD_cons, hlast]

/-- witness for the C4 theorem: peaks at hours 0, 12 and 24 (timestamps in
    seconds) give a mean high-tide interval of exactly 12 hours. -/
theorem mean_interval_spec_witness :
    meanTideInterval [0, 43200, 86400] = some 12 := by
  have h := (mean_interval_spec [0, 43200, 86400]).2 (by decide)
  rw [h]
  norm_num

/-- the claim's id is C5 (counterexample).  With troughs of altitudes
    [-5, -2, -6] the script returns -2 as the minimum valid low tide no
    matter what floor a deployment would ask for, because the floor is the
    hard-coded -4 (src/tide.py line 66); the claim's floor = -10 instance
    expects -6, and -2 ≠ -6. -/
theorem trough_floor_counterexample :
    minLowTideValue [-5, -2, -6] [0, 1, 2] = some (-2) ∧ (-2 : ℚ) ≠ -6 := by
  constructor
  · rfl
  · norm_num

/-- the claim's id is C5 (amended theorem).  The minimum valid low tide is
    the smallest altitude among troughs whose altitude is at or above the
    hard-coded floor -4; when no trough meets the floor the pandas min is NaN
    (none) and the script then aborts with an uncaught ValueError from idxmin
    (src/tide.py line 77) - no NoValidTroughError is reported. -/
theorem min_valid_low_tide_spec (alts : List ℚ) (troughs : List ℕ) :
    (minLowTideValue alts troughs = none ↔
        ∀ i ∈ troughs, alts.getD i 0 < minTideThreshold) ∧
      ∀ m, minLowTideValue alts troughs = some m →
        (∃ i ∈ troughs, alts.getD i 0 = m) ∧ minTideThreshold ≤ m ∧
          ∀ i ∈ troughs, minTideThreshold ≤ alts.getD i 0 → m ≤ alts.getD i 0 := by
  constructor
  · rw [minLowTideValue, seriesMin_eq_none_iff, validTroughValues,
      List.filter_eq_nil_iff]
    constructor
    · intro h i hi
      have := h (alts.getD i 0) (List.mem_map_of_mem _ hi)
      simpa [not_le] using this
    · intro h a ha
      rcases List.mem_map.mp ha with ⟨i, hi, rfl⟩
      simpa [not_le] using h i hi
  · intro m hm
    obtain ⟨hmem, hle⟩ := seriesMin_spec _ m hm
    rw [validTroughValues, List.mem_filter] at hmem
    obtain ⟨hmap, hpred⟩ := hmem
    rcases List.mem_map.mp hmap with ⟨i, hi, hieq⟩
    refine ⟨⟨i, hi, hieq⟩, by simpa using hpred, ?_⟩
    intro j hj hjth
    exact hle _ (List.mem_filter.mpr ⟨List.mem_map_of_mem _ hj, by simpa using hjth⟩)

/-- witness for the C5 theorem at altitudes [-5, -2, -6], troughs [0, 1, 2]
    and minimum -2. -/
theorem min_valid_low_tide_spec_witness :
    (∃ i ∈ [0, 1, 2], ([-5, -2, -6] : List ℚ).getD i 0 = -2) ∧
      minTideThreshold ≤ -2 ∧
      ∀ i ∈ ([0, 1, 2] : List ℕ),
        minTideThreshold ≤ ([-5, -2, -6] : List ℚ).getD i 0 →
          -2 ≤ ([-5, -2, -6] : List ℚ).getD i 0 :=
  (min_valid_low_tide_spec [-5, -2, -6] [0, 1, 2]).2 (-2) rfl

/- scipy.signal.find_peaks (called on src/tide.py lines 46-47), embedded from
   scipy's reference implementation.  _local_maxima_1d scans the interior of
   the series; a position whose value strictly exceeds its left neighbour
   starts a candidate run of equal values, and if the run is followed by a
   strictly smaller value the run's midpoint is reported as one local
   maximum.  _select_by_peak_distance then walks the maxima from the highest
   downwards and discards every other maximum closer than the required
   distance to a kept one. -/

/-- the inner while loop of scipy's _local_maxima_1d: starting at a position
    just right of the run's start, skip over values equal to xi; returns the
    first position at i_max or holding a different value.  fuel counts the
    positions below i_max still available, so calling with
    fuel = i_max - start reproduces the loop bound i_ahead < i_max. -/
def plateauEnd (x : List ℚ) (xi : ℚ) : ℕ → ℕ → ℕ
  | 0, ia => ia
  | fuel + 1, ia => if x.getD ia 0 = xi then plateauEnd x xi fuel (ia + 1) else ia

/-- the main scan of scipy's _local_maxima_1d over positions 1 ≤ i < i_max
    (i_max = n - 1).  fuel bounds the number of remaining iterations; any
    fuel ≥ i_max - i + 1 gives the loop's behaviour, and the lemmas below
    hold for every fuel. -/
def localMaxLoop (x : List ℚ) (iMax : ℕ) : ℕ → ℕ → List ℕ
  | 0, _ => []
  | fuel + 1, i =>
      if i < iMax then
        if x.getD (i - 1) 0 < x.getD i 0 then
          let ia := plateauEnd x (x.getD i 0) (iMax - (i + 1)) (i + 1)
          if x.getD ia 0 < x.getD i 0 then
            (i + (ia - 1)) / 2 :: localMaxLoop x iMax fuel (ia + 1)
          else localMaxLoop x iMax fuel (i + 1)
        else localMaxLoop x iMax fuel (i + 1)
      else []

/-- interior local maxima of a series, one per qualifying run, reported at
    the run's midpoint (scipy _local_maxima_1d). -/
def localMaxima (x : List ℚ) : List ℕ := localMaxLoop x (x.length - 1) x.length 1

/-- mark position k of the keep array as discarded. -/
def dropAt (keep : ℕ → Bool) (k : ℕ) : ℕ → Bool :=
  fun m => if m = k then false else keep m

/-- the left while loop of scipy's _select_by_peak_distance at a kept peak
    with value pj: walk left discarding peaks closer than the distance,
    stopping at the first peak far enough away (the peak positions are
    ascending, so everything further left is at least as far).  The walk
    visits k - 1, k - 2, ... through the fuel-style first argument, which
    also encodes the loop's 0 ≤ k bound. -/
def suppressLeft (ps : List ℕ) (d : ℤ) (pj : ℤ) : ℕ → (ℕ → Bool) → (ℕ → Bool)
  | 0, keep => keep
  | k + 1, keep =>
      if pj - (ps.getD k 0 : ℤ) < d then
        suppressLeft ps d pj k (dropAt keep k)
      else keep

/-- the right while loop of scipy's _select_by_peak_distance: walk right from
    position k discarding peaks closer than the distance, stopping at the
    first far one; fuel encodes the k < peaks_size bound. -/
def suppressRight (ps : List ℕ) (d : ℤ) (pj : ℤ) : ℕ → ℕ → (ℕ → Bool) → (ℕ → Bool)
  | 0, _, keep => keep
  | fuel + 1, k, keep =>
      if (ps.getD k 0 : ℤ) - pj < d then
        suppressRight ps d pj fuel (k + 1) (dropAt keep k)
      else keep

/-- the highest-priority-first loop of scipy's _select_by_peak_distance: for
    each position j in the processing order (peak positions by descending
    height), if j is still kept, discard the peaks within the minimum
    distance on its left and then on its right. -/
def selectLoop (ps : List ℕ) (d : ℤ) : List ℕ → (ℕ → Bool) → (ℕ → Bool)
  | [], keep => keep
  | j :: rest, keep =>
      if keep j then
        selectLoop ps d rest
          (suppressRight ps d (ps.getD j 0) (ps.length - (j + 1)) (j + 1)
            (suppressLeft ps d (ps.getD j 0) j keep))
      else selectLoop ps d rest keep

/-- insertion of index i into a list sorted by a key function, after every
    entry whose key is at most key i.  This is the stable insertion numpy's
    argsort would be on tiny inputs; numpy's quicksort argsort may order
    equal keys differently, but every theorem below about the selection is
    independent of how equal heights are ordered. -/
def insertLE (key : ℕ → ℚ) (i : ℕ) : List ℕ → List ℕ
  | [] => [i]
  | x :: xs => if key i < key x then i :: x :: xs else x :: insertLE key i xs

/-- insertion argsort by a key function: the positions 0..n-1 reordered so
    that their keys are ascending (equal keys in position order). -/
def argsortKey (key : ℕ → ℚ) (n : ℕ) : List ℕ :=
  (List.range n).foldl (fun acc i => insertLE key i acc) []

/-- processing order of _select_by_peak_distance: positions into ps from the
    highest peak height to the lowest (priority_to_position traversed in
    reverse). -/
def selectOrder (x : List ℚ) (ps : List ℕ) : List ℕ :=
  (argsortKey (fun i => x.getD (ps.getD i 0) 0) ps.length).reverse

/-- scipy.signal.find_peaks(x, distance=d): interior local maxima filtered
    by the greedy minimum-distance selection.  d is the integral sample
    distance the script passes (96); scipy would take the ceiling of a
    fractional one. -/
def findPeaks (x : List ℚ) (d : ℤ) : List ℕ :=
  let ps := localMaxima x
  let keep := selectLoop ps d (selectOrder x ps) (fun _ => true)
  ((List.range ps.length).filter (fun i => keep i)).map (fun i => ps.getD i 0)

/-- trough detection (src/tide.py line 47): find_peaks on the negated
    series. -/
def findTroughs (x : List ℚ) (d : ℤ) : List ℕ := findPeaks (x.map Neg.neg) d

lemma plateauEnd_ge (x : List ℚ) (xi : ℚ) :
    ∀ fuel ia, ia ≤ plateauEnd x xi fuel ia := by
  intro fuel
  induction fuel with
  | zero => intro ia; simp [plateauEnd]
  | succ n ih =>
      intro ia
      simp only [plateauEnd]
      split
      · exact le_trans (Nat.le_succ ia) (ih (ia + 1))
      · exact le_refl ia

lemma plateauEnd_run (x : List ℚ) (xi : ℚ) :
    ∀ fuel ia j, ia ≤ j → j < plateauEnd x xi fuel ia → x.getD j 0 = xi := by
  intro fuel
  induction fuel with
  | zero =>
      intro ia j h1 h2
      simp only [plateauEnd] at h2
      omega
  | succ n ih =>
      intro ia j h1 h2
      simp only [plateauEnd] at h2
      by_cases hx : x.getD ia 0 = xi
      · rw [if_pos hx] at h2
        rcases Nat.eq_or_lt_of_le h1 with rfl | h
        · exact hx
        · exact ih (ia + 1) j h h2
      · rw [if_neg hx] at h2
        omega

lemma localMaxLoop_ge (x : List ℚ) (iMax : ℕ) :
    ∀ fuel i m, m ∈ localMaxLoop x iMax fuel i → i ≤ m := by
  intro fuel
  induction fuel with
  | zero => intro i m hm; simp [localMaxLoop] at hm
  | succ n ih =>
      intro i m hm
      simp only [localMaxLoop] at hm
      by_cases hi : i < iMax
      · rw [if_pos hi] at hm
        have hge := plateauEnd_ge x (x.getD i 0) (iMax - (i + 1)) (i + 1)
        by_cases hrise : x.getD (i - 1) 0 < x.getD i 0
        · rw [if_pos hrise] at hm
          by_cases hfall :
              x.getD (plateauEnd x (x.getD i 0) (iMax - (i + 1)) (i + 1)) 0 < x.getD i 0
          · rw [if_pos hfall] at hm
            rcases List.mem_cons.mp hm with rfl | hm
            · omega
            · have := ih _ m hm
              omega
          · rw [if_neg hfall] at hm
            have := ih _ m hm
            omega
        · rw [if_neg hrise] at hm
          have := ih _ m hm
          omega
      · rw [if_neg hi] at hm
        simp at hm

lemma localMaxLoop_pairwise (x : List ℚ) (iMax : ℕ) :
    ∀ fuel i, List.Pairwise (fun a b => a < b) (localMaxLoop x iMax fuel i) := by
  intro fuel
  induction fuel with
  | zero => intro i; simp [localMaxLoop]
  | succ n ih =>
      intro i
      simp only [localMaxLoop]
      by_cases hi : i < iMax
      · rw [if_pos hi]
        have hge := plateauEnd_ge x (x.getD i 0) (iMax - (i + 1)) (i + 1)
        by_cases hrise : x.getD (i - 1) 0 < x.getD i 0
        · rw [if_pos hrise]
          by_cases hfall :
              x.getD (plateauEnd x (x.getD i 0) (iMax - (i + 1)) (i + 1)) 0 < x.getD i 0
          · rw [if_pos hfall]
            refine List.Pairwise.cons ?_ (ih _)
            intro m hm
            have := localMaxLoop_ge x iMax n _ m hm
            omega
          · rw [if_neg hfall]
            exact ih _
        · rw [if_neg hrise]
          exact ih _
      · rw [if_neg hi]
        simp

lemma localMaxLoop_sound (x : List ℚ) (iMax : ℕ) :
    ∀ fuel i, 1 ≤ i →
      ∀ m ∈ localMaxLoop x iMax fuel i,
        ∃ l r, 1 ≤ l ∧ l ≤ m ∧ m ≤ r ∧ m = (l + r) / 2 ∧
          x.getD (l - 1) 0 < x.getD l 0 ∧ x.getD (r + 1) 0 < x.getD r 0 ∧
          ∀ j, l ≤ j → j ≤ r → x.getD j 0 = x.getD l 0 := by
  intro fuel
  induction fuel with
  | zero => intro i h1 m hm; simp [localMaxLoop] at hm
  | succ n ih =>
      intro i h1 m hm
      simp only [localMaxLoop] at hm
      by_cases hi : i < iMax
      · rw [if_pos hi] at hm
        by_cases hrise : x.getD (i - 1) 0 < x.getD i 0
        · rw [if_pos hrise] at hm
          have hge := plateauEnd_ge x (x.getD i 0) (iMax - (i + 1)) (i + 1)
          by_cases hfall :
              x.getD (plateauEnd x (x.getD i 0) (iMax - (i + 1)) (i + 1)) 0 < x.getD i 0
          · rw [if_pos hfall] at hm
            rcases List.mem_cons.mp hm with rfl | hm
            · refine ⟨i, plateauEnd x (x.getD i 0) (iMax - (i + 1)) (i + 1) - 1,
                h1, by omega, by omega, rfl, hrise, ?_, ?_⟩
              · have hlast : x.getD (plateauEnd x (x.getD i 0) (iMax - (i + 1)) (i + 1) - 1) 0
                    = x.getD i 0 := by
                  by_cases hone : plateauEnd x (x.getD i 0) (iMax - (i + 1)) (i + 1) - 1 = i
                  · rw [hone]
                  · exact plateauEnd_run x (x.getD i 0) (iMax - (i + 1)) (i + 1) _
                      (by omega) (by omega)
                rw [show plateauEnd x (x.getD i 0) (iMax - (i + 1)) (i + 1) - 1 + 1
                    = plateauEnd x (x.getD i 0) (iMax - (i + 1)) (i + 1) by omega, hlast]
                exact hfall
              · intro j hj1 hj2
                by_cases hji : j = i
                · rw [hji]
                · exact plateauEnd_run x (x.getD i 0) (iMax - (i + 1)) (i + 1) j
                    (by omega) (by omega)
            · exact ih _ (by omega) m hm
          · rw [if_neg hfall] at hm
            exact ih _ (by omega) m hm
        · rw [if_neg hrise] at hm
          exact ih _ (by omega) m hm
      · rw [if_neg hi] at hm
        simp at hm

lemma localMaxima_pairwise (x : List ℚ) :
    List.Pairwise (fun a b => a < b) (localMaxima x) :=
  localMaxLoop_pairwise x (x.length - 1) x.length 1

lemma localMaxima_sound (x : List ℚ) (m : ℕ) (hm : m ∈ localMaxima x) :
    ∃ l r, 1 ≤ l ∧ l ≤ m ∧ m ≤ r ∧ m = (l + r) / 2 ∧
      x.getD (l - 1) 0 < x.getD l 0 ∧ x.getD (r + 1) 0 < x.getD r 0 ∧
      ∀ j, l ≤ j → j ≤ r → x.getD j 0 = x.getD l 0 :=
  localMaxLoop_sound x (x.length - 1) x.length 1 le_rfl m hm

lemma getD_map_neg (x : List ℚ) (j : ℕ) :
    (x.map Neg.neg).getD j 0 = -(x.getD j 0) := by
  simp only [List.getD, List.getElem?_map]
  cases h : x[j]? <;> simp [h]

lemma localMaxima_trough_disjoint (x : List ℚ) (m : ℕ)
    (hp : m ∈ localMaxima x) (ht : m ∈ localMaxima (x.map Neg.neg)) : False := by
  obtain ⟨l1, r1, hl1pos, hl1m, hmr1, _, hrise1, _, hrun1⟩ := localMaxima_sound x m hp
  obtain ⟨l2, r2, hl2pos, hl2m, hmr2, _, hrise2, _, hrun2⟩ := localMaxima_sound _ m ht
  rw [getD_map_neg, getD_map_neg] at hrise2
  have hfall2 : x.getD l2 0 < x.getD (l2 - 1) 0 := by
    exact neg_lt_neg_iff.mp hrise2
  have hrun2x : ∀ j, l2 ≤ j → j ≤ r2 → x.getD j 0 = x.getD l2 0 := by
    intro j hj1 hj2
    have h := hrun2 j hj1 hj2
    rw [getD_map_neg, getD_map_neg] at h
    exact neg_injective h
  rcases le_or_lt l1 l2 with hle | hlt
  · rcases Nat.eq_or_lt_of_le hle with rfl | hlt1
    · exact lt_asymm hrise1 hfall2
    · have h1 : x.getD (l2 - 1) 0 = x.getD l1 0 := hrun1 (l2 - 1) (by omega) (by omega)
      have h2 : x.getD l2 0 = x.getD l1 0 := hrun1 l2 (by omega) (by omega)
      rw [h1, h2] at hfall2
      exact lt_irrefl _ hfall2
  · have h1 : x.getD (l1 - 1) 0 = x.getD l2 0 := hrun2x (l1 - 1) (by omega) (by omega)
    have h2 : x.getD l1 0 = x.getD l2 0 := hrun2x l1 (by omega) (by omega)
    rw [h1, h2] at hrise1
    exact lt_irrefl _ hrise1

lemma dropAt_mono (keep : ℕ → Bool) (k m : ℕ) :
    dropAt keep k m = true → keep m = true := by
  intro h
  unfold dropAt at h
  split at h
  · exact absurd h (by simp)
  · exact h

lemma suppressLeft_mono (ps : List ℕ) (d : ℤ) (pj : ℤ) :
    ∀ fuel keep m, suppressLeft ps d pj fuel keep m = true → keep m = true := by
  intro fuel
  induction fuel with
  | zero => intro keep m h; exact h
  | succ k ih =>
      intro keep m h
      simp only [suppressLeft] at h
      split at h
      · exact dropAt_mono _ _ _ (ih _ _ h)
      · exact h

lemma suppressRight_mono (ps : List ℕ) (d : ℤ) (pj : ℤ) :
    ∀ fuel k keep m, suppressRight ps d pj fuel k keep m = true → keep m = true := by
  intro fuel
  induction fuel with
  | zero => intro k keep m h; exact h
  | succ n ih =>
      intro k keep m h
      simp only [suppressRight] at h
      split at h
      · exact dropAt_mono _ _ _ (ih _ _ _ h)
      · exact h

lemma selectLoop_mono (ps : List ℕ) (d : ℤ) :
    ∀ order keep m, selectLoop ps d order keep m = true → keep m = true := by
  intro order
  induction order with
  | nil => intro keep m h; exact h
  | cons o rest ih =>
      intro keep m h
      simp only [selectLoop] at h
      split at h
      · exact suppressLeft_mono _ _ _ _ _ _
          (suppressRight_mono _ _ _ _ _ _ _ (ih _ _ h))
      · exact ih _ _ h

lemma suppressRight_kill (ps : List ℕ) (d : ℤ) (pj : ℤ) :
    ∀ fuel k K keep, k ≤ K → K < k + fuel →
      (∀ m, k ≤ m → m ≤ K → (ps.getD m 0 : ℤ) - pj < d) →
      suppressRight ps d pj fuel k keep K = false := by
  intro fuel
  induction fuel with
  | zero => intro k K keep h1 h2 h3; omega
  | succ n ih =>
      intro k K keep h1 h2 h3
      simp only [suppressRight]
      rw [if_pos (h3 k le_rfl h1)]
      rcases Nat.eq_or_lt_of_le h1 with rfl | hlt
      · rcases Bool.eq_false_or_eq_true
            (suppressRight ps d pj n (k + 1) (dropAt keep k) k) with h | h
        · have hkeep := suppressRight_mono ps d pj n (k + 1) _ k h
          simp [dropAt] at hkeep
        · exact h
      · exact ih (k + 1) K _ hlt (by omega) (fun m hm1 hm2 => h3 m (by omega) hm2)

lemma pairwise_lt_getD (ps : List ℕ) (h : List.Pairwise (fun a b => a < b) ps)
    (a b : ℕ) (hab : a < b) (hb : b < ps.length) : ps.getD a 0 < ps.getD b 0 := by
  have ha : a < ps.length := lt_trans hab hb
  rw [List.getD_eq_getElem ps 0 ha, List.getD_eq_getElem ps 0 hb]
  exact List.pairwise_iff_get.mp h ⟨a, ha⟩ ⟨b, hb⟩ hab

lemma selectLoop_spacing (ps : List ℕ) (d : ℤ)
    (hps : List.Pairwise (fun a b => a < b) ps) :
    ∀ order keep j K, j < K → K < ps.length →
      (ps.getD K 0 : ℤ) - (ps.getD j 0 : ℤ) < d →
      j ∈ order →
      selectLoop ps d order keep j = true →
      selectLoop ps d order keep K = false := by
  intro order
  induction order with
  | nil => intro keep j K h1 h2 h3 hj hkeepj; simp at hj
  | cons o rest ih =>
      intro keep j K h1 h2 h3 hj hkeepj
      simp only [selectLoop] at hkeepj ⊢
      rcases List.mem_cons.mp hj with rfl | hj'
      · by_cases hkj : keep j = true
        · rw [if_pos hkj] at hkeepj ⊢
          have hK : suppressRight ps d (ps.getD j 0) (ps.length - (j + 1)) (j + 1)
              (suppressLeft ps d (ps.getD j 0) j keep) K = false := by
            apply suppressRight_kill
            · omega
            · omega
            · intro m hm1 hm2
              have hmono : ps.getD m 0 ≤ ps.getD K 0 := by
                rcases Nat.eq_or_lt_of_le hm2 with rfl | hmlt
                · exact le_rfl
                · exact le_of_lt (pairwise_lt_getD ps hps m K hmlt h2)
              omega
          rcases Bool.eq_false_or_eq_true (selectLoop ps d rest
              (suppressRight ps d (ps.getD j 0) (ps.length - (j + 1)) (j + 1)
                (suppressLeft ps d (ps.getD j 0) j keep)) K) with h | h
          · have := selectLoop_mono ps d rest _ K h
            rw [hK] at this
            exact absurd this (by simp)
          · exact h
        · rw [if_neg hkj] at hkeepj
          exact absurd (selectLoop_mono ps d rest keep j hkeepj) hkj
      · by_cases hko : keep o = true
        · rw [if_pos hko] at hkeepj ⊢
          exact ih _ j K h1 h2 h3 hj' hkeepj
        · rw [if_neg hko] at hkeepj ⊢
          exact ih _ j K h1 h2 h3 hj' hkeepj

lemma mem_insertLE (key : ℕ → ℚ) (i a : ℕ) :
    ∀ l, a ∈ insertLE key i l ↔ a = i ∨ a ∈ l := by
  intro l
  induction l with
  | nil => simp [insertLE]
  | cons x xs ih =>
      simp only [insertLE]
      split
      · simp [List.mem_cons]
      · simp only [List.mem_cons, ih]
        tauto

lemma mem_foldl_insertLE (key : ℕ → ℚ) :
    ∀ (l acc : List ℕ) (i : ℕ), i ∈ acc ∨ i ∈ l →
      i ∈ l.foldl (fun acc j => insertLE key j acc) acc := by
  intro l
  induction l with
  | nil =>
      intro acc i h
      rcases h with h | h
      · exact h
      · simp at h
  | cons j rest ih =>
      intro acc i h
      simp only [List.foldl_cons]
      apply ih
      rcases h with h | h
      · exact Or.inl ((mem_insertLE key j i acc).mpr (Or.inr h))
      · rcases List.mem_cons.mp h with rfl | h
        · exact Or.inl ((mem_insertLE key i i acc).mpr (Or.inl rfl))
        · exact Or.inr h

lemma mem_argsortKey (key : ℕ → ℚ) (n i : ℕ) (h : i < n) : i ∈ argsortKey key n :=
  mem_foldl_insertLE key (List.range n) [] i (Or.inr (List.mem_range.mpr h))

lemma mem_selectOrder (x : List ℚ) (ps : List ℕ) (i : ℕ) (h : i < ps.length) :
    i ∈ selectOrder x ps := by
  unfold selectOrder
  rw [List.mem_reverse]
  exact mem_argsortKey _ _ i h

lemma mem_findPeaks_iff (x : List ℚ) (d : ℤ) (p : ℕ) :
    p ∈ findPeaks x d ↔
      ∃ i, i < (localMaxima x).length ∧
        selectLoop (localMaxima x) d (selectOrder x (localMaxima x))
          (fun _ => true) i = true ∧
        (localMaxima x).getD i 0 = p := by
  unfold findPeaks
  simp only [List.mem_map, List.mem_filter, List.mem_range]
  constructor
  · rintro ⟨i, ⟨hi, hk⟩, he⟩
    exact ⟨i, hi, hk, he⟩
  · rintro ⟨i, hi, hk, he⟩
    exact ⟨i, ⟨hi, hk⟩, he⟩

lemma findPeaks_subset (x : List ℚ) (d : ℤ) (p : ℕ) (h : p ∈ findPeaks x d) :
    p ∈ localMaxima x := by
  rcases (mem_findPeaks_iff x d p).mp h with ⟨i, hi, _, hpi⟩
  rw [← hpi, List.getD_eq_getElem _ 0 hi]
  exact List.getElem_mem hi

/-- the claim's id is C2.  For every series and configured distance d, any
    two detected peaks are at least d samples apart, any two detected
    troughs are at least d samples apart, and no index is classified as
    both a peak and a trough. -/
theorem extrema_spacing_and_disjoint (x : List ℚ) (d : ℤ) :
    (∀ p q, p ∈ findPeaks x d → q ∈ findPeaks x d → p < q →
        d ≤ (q : ℤ) - (p : ℤ)) ∧
      (∀ p q, p ∈ findTroughs x d → q ∈ findTroughs x d → p < q →
        d ≤ (q : ℤ) - (p : ℤ)) ∧
      ∀ i, i ∈ findPeaks x d → i ∉ findTroughs x d := by
  have main : ∀ (y : List ℚ) (p q : ℕ), p ∈ findPeaks y d → q ∈ findPeaks y d →
      p < q → d ≤ (q : ℤ) - (p : ℤ) := by
    intro y p q hp hq hpq
    rcases (mem_findPeaks_iff y d p).mp hp with ⟨i, hi, hki, hpi⟩
    rcases (mem_findPeaks_iff y d q).mp hq with ⟨k, hk, hkk, hqk⟩
    have hps := localMaxima_pairwise y
    have hik : i < k := by
      rcases lt_trichotomy i k with h | rfl | h
      · exact h
      · rw [hpi] at hqk
        omega
      · have := pairwise_lt_getD _ hps k i h hi
        rw [hpi, hqk] at this
        omega
    by_contra hcon
    push_neg at hcon
    have hfalse := selectLoop_spacing _ d hps _ (fun _ => true) i k hik hk
      (by rw [hpi, hqk]; omega) (mem_selectOrder y _ i hi) hki
    rw [hfalse] at hkk
    exact absurd hkk (by simp)
  refine ⟨main x, main (x.map Neg.neg), ?_⟩
  intro i hip hit
  exact localMaxima_trough_disjoint x i (findPeaks_subset x d i hip)
    (findPeaks_subset (x.map Neg.neg) d i hit)

/-- witness for the C2 theorem on the series [0, 1, -1, 1, -1, 1, 0] with
    distance 2: its peaks are the indices 1, 3, 5 and its troughs 2, 4;
    peaks 1 and 3 are 2 apart, troughs 2 and 4 are 2 apart, and peak 1 is
    not a trough. -/
theorem extrema_spacing_and_disjoint_witness :
    (2 : ℤ) ≤ ((3 : ℕ) : ℤ) - ((1 : ℕ) : ℤ) ∧
      (2 : ℤ) ≤ ((4 : ℕ) : ℤ) - ((2 : ℕ) : ℤ) ∧
      1 ∉ findTroughs [0, 1, -1, 1, -1, 1, 0] 2 :=
  ⟨(extrema_spacing_and_disjoint [0, 1, -1, 1, -1, 1, 0] 2).1 1 3 (by decide)
      (by decide) (by decide),
    (extrema_spacing_and_disjoint [0, 1, -1, 1, -1, 1, 0] 2).2.1 2 4 (by decide)
      (by decide) (by decide),
    (extrema_spacing_and_disjoint [0, 1, -1, 1, -1, 1, 0] 2).2.2 1 (by decide)⟩

/-- the claim's id is C3 (counterexample).  On the series [0, 1, 1, 0] the
    detector classifies index 1 as a peak even though value[1] = value[2]
    (index 1 lies on a plateau) and the strict test value[1] > value[2]
    fails - scipy reports a flat maximum at the plateau's midpoint. -/
theorem plateau_peak_counterexample :
    findPeaks [0, 1, 1, 0] 96 = [1] ∧
      ([0, 1, 1, 0] : List ℚ).getD 1 0 = ([0, 1, 1, 0] : List ℚ).getD 2 0 ∧
      ¬ ([0, 1, 1, 0] : List ℚ).getD 2 0 < ([0, 1, 1, 0] : List ℚ).getD 1 0 :=
  ⟨by decide, by decide, by decide⟩

/-- the claim's id is C3 (amended theorem).  Every index the detector
    classifies as a peak is the midpoint (l + r) / 2 of a run of equal
    values x[l..r] whose edges pass the strict tests x[l-1] < x[l] and
    x[r+1] < x[r].  On a strictly varying neighbourhood the run is the
    single sample l = r = m, which is exactly the claim's strict
    local-maximum test; a plateau's midpoint, however, is classified as an
    extremum (the counterexample), so the strict test only holds at run
    edges. -/
theorem peak_run_characterisation (x : List ℚ) (d : ℤ) (m : ℕ)
    (hm : m ∈ findPeaks x d) :
    ∃ l r, 1 ≤ l ∧ l ≤ m ∧ m ≤ r ∧ m = (l + r) / 2 ∧
      x.getD (l - 1) 0 < x.getD l 0 ∧ x.getD (r + 1) 0 < x.getD r 0 ∧
      ∀ j, l ≤ j → j ≤ r → x.getD j 0 = x.getD l 0 :=
  localMaxima_sound x m (findPeaks_subset x d m hm)

/-- witness for the C3 theorem at the plateau series [0, 1, 1, 0] and its
    detected peak 1. -/
theorem peak_run_characterisation_witness :
    ∃ l r, 1 ≤ l ∧ l ≤ 1 ∧ 1 ≤ r ∧ 1 = (l + r) / 2 ∧
      ([0, 1, 1, 0] : List ℚ).getD (l - 1) 0 < ([0, 1, 1, 0] : List ℚ).getD l 0 ∧
      ([0, 1, 1, 0] : List ℚ).getD (r + 1) 0 < ([0, 1, 1, 0] : List ℚ).getD r 0 ∧
      ∀ j, l ≤ j → j ≤ r →
        ([0, 1, 1, 0] : List ℚ).getD j 0 = ([0, 1, 1, 0] : List ℚ).getD l 0 :=
  peak_run_characterisation [0, 1, 1, 0] 96 1 (by decide)

/- pandas sort_values(by='datetime') (src/tide.py line 34) argsorts the
   timestamp column with numpy's default kind='quicksort' (introsort), which
   pandas documents as not stable.  The functions below embed numpy's
   reference scalar aquicksort (numpy npysort quicksort source): an indirect
   sort of an index array tosort comparing key values; segments of at most
   16 entries are finished by a stable indirect insertion sort, larger ones
   are split by a median-of-3 partition whose index swaps break stability,
   and a segment falls back to an indirect heapsort only once the depth
   budget 2 * msb(n) is spent.  (numpy builds with SIMD dispatch may select
   a different - also unstable - kernel; the classic scalar algorithm is the
   reference behaviour embedded here.) -/

/-- swap the entries of the index array at positions i and j (INTP_SWAP). -/
def listSwap (t : List ℕ) (i j : ℕ) : List ℕ :=
  (t.set i (t.getD j 0)).set j (t.getD i 0)

/-- stable indirect insertion sort of a whole index list by a key (the
    insertion-sort leaf of numpy's aquicksort: each index is placed after
    every entry whose key is at most its own). -/
def insSortList (key : ℕ → ℚ) (l : List ℕ) : List ℕ :=
  l.foldl (fun acc i => insertLE key i acc) []

/-- the insertion-sort leaf applied to the segment [pl, pr] of the index
    array, leaving everything outside the segment in place. -/
def insSortSeg (key : ℕ → ℚ) (t : List ℕ) (pl pr : ℕ) : List ℕ :=
  t.take pl ++ insSortList key ((t.drop pl).take (pr + 1 - pl)) ++ t.drop (pr + 1)

/-- the sift-down of numpy's indirect aheapsort: 1-based heap positions over
    the segment starting at base (a[k] is t[base + k - 1]); walk the winning
    child while it beats the candidate tmp, then place tmp. -/
def heapSift (key : ℕ → ℚ) (base nn : ℕ) : ℕ → ℕ → ℕ → List ℕ → List ℕ
  | 0, i, tmp, t => t.set (base + i - 1) tmp
  | fuel + 1, i, tmp, t =>
      if 2 * i ≤ nn then
        let j := if 2 * i < nn ∧
            key (t.getD (base + 2 * i - 1) 0) < key (t.getD (base + 2 * i) 0)
          then 2 * i + 1 else 2 * i
        if key tmp < key (t.getD (base + j - 1) 0) then
          heapSift key base nn fuel j tmp (t.set (base + i - 1) (t.getD (base + j - 1) 0))
        else t.set (base + i - 1) tmp
      else t.set (base + i - 1) tmp

/-- heapify phase of aheapsort: sift the nodes nn/2, ..., 1. -/
def heapBuild (key : ℕ → ℚ) (base nn : ℕ) : ℕ → List ℕ → List ℕ
  | 0, t => t
  | l + 1, t =>
      heapBuild key base nn l
        (heapSift key base nn (nn + 1) (l + 1) (t.getD (base + l) 0) t)

/-- pop phase of aheapsort: repeatedly move the root behind the shrinking
    heap and re-sift from the root. -/
def heapPop (key : ℕ → ℚ) (base : ℕ) : ℕ → List ℕ → List ℕ
  | 0, t => t
  | 1, t => t
  | n + 1, t =>
      heapPop key base n
        (heapSift key base n (n + 1) 1 (t.getD (base + n) 0)
          (t.set (base + n) (t.getD base 0)))

/-- numpy's indirect aheapsort of the segment [pl, pr] (the introsort depth
    fallback; unreachable for the small series evaluated in this file). -/
def aheapsortSeg (key : ℕ → ℚ) (t : List ℕ) (pl pr : ℕ) : List ℕ :=
  heapPop key pl (pr + 1 - pl) (heapBuild key pl (pr + 1 - pl) ((pr + 1 - pl) / 2) t)

/-- the rightward do-while scan of numpy's partition: advance pi, continuing
    while the key at tosort[pi] is below the pivot (the pivot copy parked at
    pr - 1 stops the scan, so any fuel ≥ the segment length suffices). -/
def scanUp (key : ℕ → ℚ) (t : List ℕ) (vp : ℚ) : ℕ → ℕ → ℕ
  | 0, pi => pi + 1
  | fuel + 1, pi =>
      if key (t.getD (pi + 1) 0) < vp then scanUp key t vp fuel (pi + 1) else pi + 1

/-- the leftward do-while scan: retreat pj, continuing while the pivot is
    below the key at tosort[pj] (the median-of-3 guarantees the entry at pl
    stops the scan). -/
def scanDown (key : ℕ → ℚ) (t : List ℕ) (vp : ℚ) : ℕ → ℕ → ℕ
  | 0, pj => pj - 1
  | fuel + 1, pj =>
      if vp < key (t.getD (pj - 1) 0) then scanDown key t vp fuel (pj - 1) else pj - 1

/-- the exchange loop of numpy's partition: scan inward from both ends and
    swap each out-of-place pair of indices until the scans cross; returns
    the crossing position pi and the updated index array. -/
def partLoop (key : ℕ → ℚ) (vp : ℚ) : ℕ → ℕ → ℕ → List ℕ → ℕ × List ℕ
  | 0, pi, _, t => (pi, t)
  | fuel + 1, pi, pj, t =>
      let pi1 := scanUp key t vp t.length pi
      let pj1 := scanDown key t vp t.length pj
      if pj1 ≤ pi1 then (pi1, t)
      else partLoop key vp fuel pi1 pj1 (listSwap t pi1 pj1)

/-- one quicksort partition of numpy's aquicksort on the segment [pl, pr]:
    median-of-3 pivot selection via index swaps, the pivot index parked at
    pr - 1, the inward exchange scans, and the final swap placing the pivot
    at the crossing position pi.  Returns pi and the new index array. -/
def aqPartition (key : ℕ → ℚ) (t : List ℕ) (pl pr : ℕ) : ℕ × List ℕ :=
  let pm := pl + (pr - pl) / 2
  let t1 := if key (t.getD pm 0) < key (t.getD pl 0) then listSwap t pm pl else t
  let t2 := if key (t1.getD pr 0) < key (t1.getD pm 0) then listSwap t1 pr pm else t1
  let t3 := if key (t2.getD pm 0) < key (t2.getD pl 0) then listSwap t2 pm pl else t2
  let vp := key (t3.getD pm 0)
  let t4 := listSwap t3 pm (pr - 1)
  let pit5 := partLoop key vp t4.length pl (pr - 1) t4
  (pit5.1, listSwap pit5.2 pit5.1 (pr - 1))

/-- fuel-driven most-significant-bit position (npy_get_msb): floor log2. -/
def msbFuel : ℕ → ℕ → ℕ
  | 0, _ => 0
  | fuel + 1, n => if 2 ≤ n then msbFuel fuel (n / 2) + 1 else 0

/-- the driver loop of numpy's aquicksort with its explicit segment stack:
    segments of more than SMALL_QUICKSORT = 15 entries beyond the first are
    partitioned (the larger side pushed, the smaller continued, the depth
    budget decremented) unless the budget is spent, in which case the
    segment is heapsorted; smaller segments are insertion sorted; finishing
    a segment pops the stack. -/
def aqsortLoop (key : ℕ → ℚ) : ℕ → List (ℕ × ℕ) → ℕ → ℕ → ℤ → List ℕ → List ℕ
  | 0, _, _, _, _, t => t
  | fuel + 1, stack, pl, pr, depth, t =>
      if 15 < pr - pl then
        if depth < 0 then
          match stack with
          | [] => aheapsortSeg key t pl pr
          | (pl1, pr1) :: rest =>
              aqsortLoop key fuel rest pl1 pr1 (depth - 1) (aheapsortSeg key t pl pr)
        else
          let pit := aqPartition key t pl pr
          if pit.1 - pl < pr - pit.1 then
            aqsortLoop key fuel ((pit.1 + 1, pr) :: stack) pl (pit.1 - 1) (depth - 1) pit.2
          else
            aqsortLoop key fuel ((pl, pit.1 - 1) :: stack) (pit.1 + 1) pr (depth - 1) pit.2
      else
        match stack with
        | [] => insSortSeg key t pl pr
        | (pl1, pr1) :: rest =>
            aqsortLoop key fuel rest pl1 pr1 depth (insSortSeg key t pl pr)

/-- numpy argsort with kind='quicksort': the index array starts as
    0, ..., n-1 and is indirectly sorted by the key. -/
def npyArgsort (key : ℕ → ℚ) (n : ℕ) : List ℕ :=
  aqsortLoop key (n * n + 1) [] 0 (n - 1) (2 * (msbFuel n n : ℤ)) (List.range n)

/-- indices of the merged frame in sorted order: numpy argsort of the
    'datetime' column (pandas sort_values, src/tide.py line 34). -/
def mergeIndices (rows : List Sample) : List ℕ :=
  npyArgsort (fun i => (rows.getD i default).t) rows.length

/-- pandas sort_values(by='datetime') followed by reset_index(drop=True)
    (src/tide.py line 34): the concatenated rows reordered by the argsort of
    their timestamps. -/
def sortByDatetime (rows : List Sample) : List Sample :=
  (mergeIndices rows).map (fun i => rows.getD i default)

/-- the reported no-data condition of the merge (src/tide.py lines 28-30:
    the script prints "No valid data files provided." and returns). -/
inductive MergeError where
  | emptyInput
deriving DecidableEq

/-- the merge stage (src/tide.py lines 28-34): if the list of successfully
    loaded frames is empty the script reports and returns without output;
    otherwise the loaded frames are concatenated (pd.concat, line 33) and
    sorted by timestamp.  The guard tests only that the list of loaded
    frames is non-empty: a loaded frame with zero rows counts. -/
def mergeStage (loaded : List (List Sample)) : Except MergeError (List Sample) :=
  if loaded.isEmpty then Except.error MergeError.emptyInput
  else Except.ok (sortByDatetime loaded.flatten)

/-- the claim's id is C7 (counterexample).  Merging two loaded empty
    sequences does NOT yield the no-data report: the script's guard checks
    only that the list of loaded frames is non-empty, so [[], []] merges to
    an empty series (and the run then dies later, inside savgol_filter). -/
theorem merge_two_empty_counterexample :
    mergeStage [[], []] = Except.ok [] := by
  rfl

/-- the claim's id is C7 (amended theorem).  The merge reports its no-data
    condition exactly when the list of loaded input frames is empty (no file
    loaded at all); whenever at least one frame was loaded - even with zero
    rows - the merge succeeds with the sorted concatenation.  The report is
    non-fatal (a print-and-return, not an exception). -/
theorem merge_empty_report_iff (loaded : List (List Sample)) :
    (mergeStage loaded = Except.error MergeError.emptyInput ↔ loaded = []) ∧
      (loaded ≠ [] →
        mergeStage loaded = Except.ok (sortByDatetime loaded.flatten)) := by
  constructor
  · constructor
    · intro h
      by_cases he : loaded.isEmpty
      · exact List.isEmpty_iff.mp he
      · rw [mergeStage, if_neg he] at h
        cases h
    · intro h
      rw [mergeStage, if_pos (List.isEmpty_iff.mpr h)]
  · intro h
    rw [mergeStage, if_neg (by simpa [List.isEmpty_iff] using h)]

/-- witness for the C7 theorem: one loaded frame with a single row merges to
    itself. -/
theorem merge_empty_report_iff_witness :
    mergeStage [[⟨0, 1⟩]] = Except.ok (sortByDatetime ([[(⟨0, 1⟩ : Sample)]]).flatten) :=
  (merge_empty_report_iff [[⟨0, 1⟩]]).2 (by decide)

/-- strict ordering by key with ties broken by position: the order a stable
    sort of positions by key realises. -/
def keyLex (key : ℕ → ℚ) (a b : ℕ) : Prop :=
  key a < key b ∨ (key a = key b ∧ a < b)

lemma insertLE_pairwise (key : ℕ → ℚ) (i : ℕ) :
    ∀ l, List.Pairwise (keyLex key) l → (∀ a ∈ l, a < i) →
      List.Pairwise (keyLex key) (insertLE key i l) := by
  intro l
  induction l with
  | nil => intro _ _; simp [insertLE]
  | cons x xs ih =>
      intro hl hall
      rw [List.pairwise_cons] at hl
      obtain ⟨hx, hxs⟩ := hl
      simp only [insertLE]
      split
      case isTrue hlt =>
        rw [List.pairwise_cons]
        refine ⟨?_, List.pairwise_cons.mpr ⟨hx, hxs⟩⟩
        intro b hb
        rcases List.mem_cons.mp hb with rfl | hb
        · exact Or.inl hlt
        · rcases hx b hb with h | ⟨h, _⟩
          · exact Or.inl (lt_trans hlt h)
          · exact Or.inl (h ▸ hlt)
      case isFalse hge =>
        rw [List.pairwise_cons]
        constructor
        · intro b hb
          rcases (mem_insertLE key i b xs).mp hb with rfl | hb
          · rcases lt_or_eq_of_le (not_lt.mp hge) with h | h
            · exact Or.inl h
            · exact Or.inr ⟨h, hall x (List.mem_cons_self x xs)⟩
          · exact hx b hb
        · exact ih hxs (fun a ha => hall a (List.mem_cons_of_mem x ha))

lemma foldl_insertLE_pairwise (key : ℕ → ℚ) :
    ∀ (l acc : List ℕ), List.Pairwise (keyLex key) acc →
      (∀ a ∈ acc, ∀ b ∈ l, a < b) → List.Pairwise (fun a b => a < b) l →
      List.Pairwise (keyLex key) (l.foldl (fun acc j => insertLE key j acc) acc) := by
  intro l
  induction l with
  | nil => intro acc hacc _ _; exact hacc
  | cons j rest ih =>
      intro acc hacc hinv hlt
      rw [List.pairwise_cons] at hlt
      obtain ⟨hj, hrest⟩ := hlt
      simp only [List.foldl_cons]
      apply ih
      · exact insertLE_pairwise key j acc hacc
          (fun a ha => hinv a ha j (List.mem_cons_self j rest))
      · intro a ha b hb
        rcases (mem_insertLE key j a acc).mp ha with rfl | ha
        · exact hj b hb
        · exact hinv a ha b (List.mem_cons_of_mem j hb)
      · exact hrest

lemma insSortList_pairwise (key : ℕ → ℚ) (n : ℕ) :
    List.Pairwise (keyLex key) (insSortList key (List.range n)) :=
  foldl_insertLE_pairwise key (List.range n) [] (by simp) (by simp)
    (List.pairwise_lt_range n)

lemma npyArgsort_small (key : ℕ → ℚ) (n : ℕ) (h : n ≤ 16) :
    npyArgsort key n = insSortList key (List.range n) := by
  unfold npyArgsort
  simp only [aqsortLoop]
  rw [if_neg (by omega)]
  show insSortSeg key (List.range n) 0 (n - 1) = insSortList key (List.range n)
  rcases Nat.eq_zero_or_pos n with rfl | hn
  · rfl
  · unfold insSortSeg
    rw [List.take_zero, List.drop_zero, show n - 1 + 1 = n from by omega]
    rw [List.take_of_length_le (by simp), List.drop_eq_nil_of_le (by simp)]
    simp

/-- the claim's id is C6 (amended theorem).  The merge sorts by timestamp
    with numpy's quicksort argsort, which is stable only on its
    insertion-sort leaf: whenever the merged series has at most 16 samples,
    two samples sharing a timestamp keep their concatenation order in the
    merged output (their positions in the sorted index list stay ordered);
    on larger merges the partition's index swaps can reorder equal
    timestamps (see the counterexample). -/
theorem merge_stable_small (rows : List Sample) (h16 : rows.length ≤ 16)
    (p q : ℕ) (hpq : p < q)
    (heq : (rows.getD p default).t = (rows.getD q default).t)
    (ip iq : Fin (mergeIndices rows).length)
    (hp : (mergeIndices rows).get ip = p) (hq : (mergeIndices rows).get iq = q) :
    ip < iq := by
  have hpw : List.Pairwise (keyLex (fun i => (rows.getD i default).t))
      (mergeIndices rows) := by
    unfold mergeIndices
    rw [npyArgsort_small (fun i => (rows.getD i default).t) rows.length h16]
    exact insSortList_pairwise _ _
  rcases lt_trichotomy ip iq with h | h | h
  · exact h
  · rw [h] at hp
    rw [hp] at hq
    omega
  · have hrel := List.pairwise_iff_get.mp hpw iq ip h
    rw [hp, hq] at hrel
    rcases hrel with hlt | ⟨_, hlt⟩
    · have hlt2 : (rows.getD q default).t < (rows.getD p default).t := hlt
      rw [heq] at hlt2
      exact absurd hlt2 (lt_irrefl _)
    · omega

/-- witness for the C6 theorem: two rows sharing timestamp 5 merge in their
    original order. -/
theorem merge_stable_small_witness :
    (⟨0, by decide⟩ : Fin (mergeIndices [⟨5, 0⟩, ⟨5, 1⟩]).length) <
      (⟨1, by decide⟩ : Fin (mergeIndices [⟨5, 0⟩, ⟨5, 1⟩]).length) :=
  merge_stable_small [⟨5, 0⟩, ⟨5, 1⟩] (by decide) 0 1 (by decide) (by decide)
    ⟨0, by decide⟩ ⟨1, by decide⟩ (by decide) (by decide)

/-- seventeen rows whose timestamps contain three ties at 5 (at positions 2,
    8 and 12); the value channel records each row's original position. -/
def c6rows : List Sample :=
  [⟨0, 0⟩, ⟨1, 1⟩, ⟨5, 2⟩, ⟨2, 3⟩, ⟨3, 4⟩, ⟨4, 5⟩, ⟨4, 6⟩, ⟨4, 7⟩, ⟨5, 8⟩,
    ⟨9, 9⟩, ⟨10, 10⟩, ⟨11, 11⟩, ⟨5, 12⟩, ⟨12, 13⟩, ⟨13, 14⟩, ⟨14, 15⟩, ⟨16, 16⟩]

/-- the claim's id is C6 (counterexample).  Merging this 17-row input is not
    a stable sort: the three rows with timestamp 5 enter in the order of
    values 2, 8, 12 but leave in the order 12, 8, 2, because numpy's
    quicksort partition swaps their indices (the first partition exchanges
    tosort[2] with tosort[12] and parks the pivot index 8 between the two
    halves). -/
theorem merge_not_stable_counterexample :
    mergeStage [c6rows] = Except.ok (sortByDatetime c6rows) ∧
      (sortByDatetime c6rows).map Sample.v =
        [0, 1, 3, 4, 5, 6, 7, 12, 8, 2, 9, 10, 11, 13, 14, 15, 16] ∧
      (c6rows.getD 2 default).t = (c6rows.getD 12 default).t ∧
      (c6rows.getD 2 default).v = 2 ∧ (c6rows.getD 12 default).v = 12 := by
  refine ⟨rfl, by decide, by decide, by decide, by decide⟩

/- scipy.signal.savgol_filter(altitude, 5, 2) as called on src/tide.py
   lines 40-42, with the default mode 'interp': every interior sample is the
   value at the window's centre of the least-squares quadratic fit over the
   5 surrounding samples (equivalently the convolution with
   savgol_coeffs(5, 2)), and the first/last two samples are the
   least-squares quadratic fit to the first/last five samples evaluated at
   their own positions (_fit_edges_polyfit).  The rows below are the exact
   rational least-squares projection coefficients for a degree-2 fit on five
   equally spaced points; scipy computes the same numbers in floating
   point.  For a series shorter than the window, savgol_filter with mode
   'interp' raises a ValueError, modelled as none. -/

/-- value at position t ∈ {0, ..., 4} of the least-squares quadratic fit to
    the samples y0..y4 placed at positions 0..4.  Row 2 is the
    savgol_coeffs(5, 2) convolution kernel (-3, 12, 17, 12, -3) / 35. -/
def sgFitRow (t : ℕ) (y0 y1 y2 y3 y4 : ℚ) : ℚ :=
  match t with
  | 0 => (31 * y0 + 9 * y1 - 3 * y2 - 5 * y3 + 3 * y4) / 35
  | 1 => (9 * y0 + 13 * y1 + 12 * y2 + 6 * y3 - 5 * y4) / 35
  | 2 => (-3 * y0 + 12 * y1 + 17 * y2 + 12 * y3 - 3 * y4) / 35
  | 3 => (-5 * y0 + 6 * y1 + 12 * y2 + 13 * y3 + 9 * y4) / 35
  | _ => (3 * y0 - 5 * y1 - 3 * y2 + 9 * y3 + 31 * y4) / 35

/-- the smoothed value at position i of a series of length n ≥ 5: positions
    0 and 1 read the fit to the first five samples, positions n-2 and n-1
    the fit to the last five, interior positions the central kernel. -/
def savgolAt (xs : List ℚ) (i : ℕ) : ℚ :=
  if i < 2 then
    sgFitRow i (xs.getD 0 0) (xs.getD 1 0) (xs.getD 2 0) (xs.getD 3 0) (xs.getD 4 0)
  else if xs.length - 2 ≤ i then
    sgFitRow (i - (xs.length - 5)) (xs.getD (xs.length - 5) 0)
      (xs.getD (xs.length - 4) 0) (xs.getD (xs.length - 3) 0)
      (xs.getD (xs.length - 2) 0) (xs.getD (xs.length - 1) 0)
  else
    sgFitRow 2 (xs.getD (i - 2) 0) (xs.getD (i - 1) 0) (xs.getD i 0)
      (xs.getD (i + 1) 0) (xs.getD (i + 2) 0)

/-- scipy.signal.savgol_filter(x, window_length=5, polyorder=2),
    mode='interp' (src/tide.py line 42).  none models the ValueError raised
    when the series is shorter than the window. -/
def savgolFilter52 (xs : List ℚ) : Option (List ℚ) :=
  if xs.length < 5 then none
  else some ((List.range xs.length).map (fun i => savgolAt xs i))

lemma savgolFilter52_length (xs ys : List ℚ) (h : savgolFilter52 xs = some ys) :
    ys.length = xs.length := by
  unfold savgolFilter52 at h
  split at h
  · cases h
  · injection h with h
    rw [← h]
    simp

lemma savgolFilter52_none_iff (xs : List ℚ) :
    savgolFilter52 xs = none ↔ xs.length < 5 := by
  unfold savgolFilter52
  split
  case isTrue h => simpa using h
  case isFalse h => simpa using h

/-- the claim's id is C8.  The filtering the engine applies (the
    Savitzky-Golay smoothing; there is no second strategy in the code, see
    C1) returns a denoised series of exactly the input's length whenever it
    is defined, with position i of the output smoothing position i of the
    input (index alignment is by construction of the positional map); it is
    undefined - a raised ValueError - exactly on series shorter than the
    5-sample window. -/
theorem filter_output_aligned (xs : List ℚ) :
    (∀ ys, savgolFilter52 xs = some ys →
        ys.length = xs.length ∧ ∀ i, ys.getD i 0 = if i < xs.length then savgolAt xs i else 0) ∧
      (savgolFilter52 xs = none ↔ xs.length < 5) := by
  refine ⟨fun ys hy => ⟨savgolFilter52_length xs ys hy, ?_⟩, savgolFilter52_none_iff xs⟩
  intro i
  unfold savgolFilter52 at hy
  split at hy
  · cases hy
  · injection hy with hy
    rw [← hy]
    by_cases hi : i < xs.length
    · rw [if_pos hi]
      rw [List.getD_eq_getElem _ 0 (by simpa using hi)]
      simp
    · rw [if_neg hi]
      rw [List.getD_eq_default _ 0 (by simpa using hi)]

/-- witness for the C8 theorem on a 6-sample series: the smoothed output has
    6 samples too. -/
theorem filter_output_aligned_witness :
    (savgolFilter52 [1, 2, 3, 4, 5, 6]).getD [] =
        (List.range 6).map (fun i => savgolAt [1, 2, 3, 4, 5, 6] i) ∧
      ((List.range 6).map (fun i => savgolAt [1, 2, 3, 4, 5, 6] i)).length = 6 :=
  ⟨rfl,
    (filter_output_aligned [1, 2, 3, 4, 5, 6]).1
      ((List.range 6).map (fun i => savgolAt [1, 2, 3, 4, 5, 6] i)) rfl |>.1⟩

/-- pandas Series.max (src/tide.py line 69): NaN on an empty selection,
    modelled as none (the idxmax on the next line then raises). -/
def seriesMax (l : List ℚ) : Option ℚ :=
  match l with
  | [] => none
  | x :: xs => some (xs.foldl max x)

/-- the timestamp paired with the first occurrence of value v (pandas
    idxmax/idxmin return the first position achieving the extremum). -/
def firstAtValue (pairs : List (ℚ × ℚ)) (v : ℚ) : Option ℚ :=
  (pairs.find? (fun p => decide (p.1 = v))).map Prod.snd

/-- the (altitude, datetime) pairs of the troughs passing the hard-coded
    floor (src/tide.py lines 73-74). -/
def validTroughPairs (alts : List ℚ) (troughs : List ℕ) (times : List ℚ) :
    List (ℚ × ℚ) :=
  ((troughs.map (fun i => alts.getD i 0)).zip times).filter
    (fun p => decide (minTideThreshold ≤ p.1))

/-- the engine's configuration surface: process_tidal_data(input_files,
    output_file='result.xlsx') (src/tide.py lines 8 and 124-131) has exactly
    one non-data parameter, the output file name.  No recognised option
    selects a filter strategy, window size, polynomial order, frequency
    band, extrema spacing, trough floor or conversion coefficients - those
    are all hard-coded constants inside the function body. -/
structure Config where
  outputFile : String
deriving DecidableEq

/-- the annotated series table the script exports (sheet 'Processed Data':
    columns datetime, Current (mA), Altitude, Smoothed, Extrema;
    src/tide.py lines 33-53 and 118-121). -/
structure ProcessedTable where
  datetime : List ℚ
  current : List ℚ
  altitudeCol : List ℚ
  smoothedCol : List ℚ
  extremaCol : List String
deriving DecidableEq

/-- the statistics table (sheet 'Tidal Statistics', src/tide.py
    lines 80-93); an interval entry is none when pandas produced NaN. -/
structure StatsTable where
  meanHighInterval : Option ℚ
  meanLowInterval : Option ℚ
  maxHighTide : ℚ × ℚ
  minLowTide : ℚ × ℚ
deriving DecidableEq

/-- end-to-end embedding of process_tidal_data on already-loaded frames:
    merge and sort (lines 28-34), unit conversion (line 37), smoothing
    (lines 40-42), extrema detection (lines 45-47), labelling (lines 50-53),
    statistics (lines 55-93) and export (lines 118-121).  none models every
    run that never reaches the export: the no-data early return, the
    ValueError savgol_filter raises on a series shorter than the window, the
    idxmax over an empty peak selection (line 70) and the idxmin over an
    empty valid-trough selection (line 77).  The configuration only names
    the output file; no branch of the computation reads it. -/
def runPipeline (cfg : Config) (loaded : List (List Sample)) :
    Option (ProcessedTable × StatsTable) :=
  match mergeStage loaded with
  | Except.error _ => none
  | Except.ok merged =>
    match savgolFilter52 (merged.map altitude) with
    | none => none
    | some smoothed =>
      let alts := merged.map altitude
      let peaks := findPeaks smoothed 96
      let troughs := findTroughs smoothed 96
      let highTimes := peaks.map (fun i => (merged.getD i default).t)
      let lowTimes := troughs.map (fun i => (merged.getD i default).t)
      let peakAlts := peaks.map (fun i => alts.getD i 0)
      match seriesMax peakAlts with
      | none => none
      | some maxHigh =>
        match minLowTideValue alts troughs with
        | none => none
        | some minLow =>
          some
            ({ datetime := merged.map Sample.t
               current := merged.map Sample.v
               altitudeCol := alts
               smoothedCol := smoothed
               extremaCol := (List.range merged.length).map (fun i =>
                 if i ∈ troughs then "Min" else if i ∈ peaks then "Max" else "") },
             { meanHighInterval := meanTideInterval highTimes
               meanLowInterval := meanTideInterval lowTimes
               maxHighTide :=
                 (maxHigh, (firstAtValue (peakAlts.zip highTimes) maxHigh).getD 0)
               minLowTide :=
                 (minLow,
                   (firstAtValue (validTroughPairs alts troughs lowTimes) minLow).getD 0) })

/-- a loaded frame of eight 5-minute samples whose smoothed altitudes have a
    peak (index 2) and a valid trough (index 5): a run that reaches the
    export. -/
def c1demo : List Sample :=
  [⟨0, 10⟩, ⟨300, 11⟩, ⟨600, 12⟩, ⟨900, 11⟩, ⟨1200, 10⟩, ⟨1500, 9⟩,
    ⟨1800, 10⟩, ⟨2100, 11⟩]

attribute [local semireducible] Rat.mul Rat.inv Rat.add Rat.sub in
/-- the claim's id is C1 (counterexample).  The engine offers no
    strategy-selecting configuration: two runs configured as differently as
    the interface allows (its only non-data parameter is the output file
    name) produce the identical result, and that result's smoothed column is
    the hard-coded Savitzky-Golay window-5 order-2 filtering of the altitude
    column - never a band-pass reconstruction, whatever the configuration.
    (Rat.mul and friends are irreducible by default; they are made
    semireducible here only so that the evaluation can go through the
    kernel.) -/
theorem strategy_config_counterexample :
    runPipeline { outputFile := "a.xlsx" } [c1demo] =
        runPipeline { outputFile := "b.xlsx" } [c1demo] ∧
      (runPipeline { outputFile := "a.xlsx" } [c1demo]).map
          (fun r => some r.1.smoothedCol) =
        some (savgolFilter52 ((sortByDatetime c1demo).map altitude)) :=
  ⟨rfl, by decide⟩

/-- the claim's id is C1 (amended theorem).  The filter strategy and its
    parameters are hard-coded, not configuration: for every pair of
    configurations the pipeline's result is identical, and every exported
    table's smoothed column is exactly savgol_filter(window 5, order 2) of
    its altitude column - the polynomial strategy with fixed parameters is
    the only filtering the engine ever applies. -/
theorem strategy_hard_coded (cfg cfg2 : Config) (loaded : List (List Sample)) :
    runPipeline cfg loaded = runPipeline cfg2 loaded ∧
      ∀ tbl stats, runPipeline cfg loaded = some (tbl, stats) →
        savgolFilter52 tbl.altitudeCol = some tbl.smoothedCol := by
  refine ⟨rfl, ?_⟩
  intro tbl stats h
  unfold runPipeline at h
  split at h
  · exact Option.noConfusion h
  · rename_i merged hmerge
    split at h
    · exact Option.noConfusion h
    · rename_i smoothed hsavgol
      dsimp only at h
      split at h
      · exact Option.noConfusion h
      · rename_i maxHigh hmax
        split at h
        · exact Option.noConfusion h
        · rename_i minLow hmin
          injection h with h2
          rw [Prod.mk.injEq] at h2
          obtain ⟨h3, _⟩ := h2
          rw [← h3]
          exact hsavgol

attribute [local semireducible] Rat.mul Rat.inv Rat.add Rat.sub in
/-- witness for the C1 theorem: a successful run on the demo frame, whose
    smoothed column is the hard-coded polynomial filtering of its altitude
    column. -/
theorem strategy_hard_coded_witness :
    runPipeline { outputFile := "a.xlsx" } [c1demo] =
        runPipeline { outputFile := "b.xlsx" } [c1demo] ∧
      ∃ tbl stats,
        runPipeline { outputFile := "a.xlsx" } [c1demo] = some (tbl, stats) ∧
          savgolFilter52 tbl.altitudeCol = some tbl.smoothedCol := by
  obtain ⟨h1, h2⟩ := strategy_hard_coded { outputFile := "a.xlsx" }
    { outputFile := "b.xlsx" } [c1demo]
  refine ⟨h1, ?_⟩
  cases hr : runPipeline { outputFile := "a.xlsx" } [c1demo] with
  | none => exact absurd hr (by decide)
  | some pr => exact ⟨pr.1, pr.2, rfl, h2 pr.1 pr.2 hr⟩

/-- a loaded frame identical in content to the C1 demo, used by the C10
    witness. -/
def c10demo : List Sample :=
  [⟨0, 10⟩, ⟨300, 11⟩, ⟨600, 12⟩, ⟨900, 11⟩, ⟨1200, 10⟩, ⟨1500, 9⟩,
    ⟨1800, 10⟩, ⟨2100, 11⟩]

/-- the claim's id is C10.  Every stage after the merge leaves the merged
    timestamp and raw current channels unchanged: whenever the run reaches
    the export, the exported table's datetime and current columns are
    exactly the merged series' two channels, the Altitude column is their
    element-wise conversion, and the added Smoothed and Extrema columns are
    parallel (same length) - no stage rewrites the merged entries. -/
theorem merged_channels_preserved (cfg : Config) (loaded : List (List Sample))
    (tbl : ProcessedTable) (stats : StatsTable)
    (h : runPipeline cfg loaded = some (tbl, stats)) :
    tbl.datetime = (sortByDatetime loaded.flatten).map Sample.t ∧
      tbl.current = (sortByDatetime loaded.flatten).map Sample.v ∧
      tbl.altitudeCol = (sortByDatetime loaded.flatten).map altitude ∧
      tbl.smoothedCol.length = tbl.datetime.length ∧
      tbl.extremaCol.length = tbl.datetime.length := by
  unfold runPipeline at h
  split at h
  · exact Option.noConfusion h
  · rename_i merged hmerge
    have hmerged : merged = sortByDatetime loaded.flatten := by
      unfold mergeStage at hmerge
      split at hmerge
      · cases hmerge
      · injection hmerge with hm
        exact hm.symm
    split at h
    · exact Option.noConfusion h
    · rename_i smoothed hsavgol
      dsimp only at h
      split at h
      · exact Option.noConfusion h
      · rename_i maxHigh hmax
        split at h
        · exact Option.noConfusion h
        · rename_i minLow hmin
          injection h with h2
          rw [Prod.mk.injEq] at h2
          obtain ⟨h3, _⟩ := h2
          rw [← h3, ← hmerged]
          refine ⟨rfl, rfl, rfl, ?_, ?_⟩
          · have hlen := savgolFilter52_length (merged.map altitude) smoothed hsavgol
            simpa using hlen
          · simp

attribute [local semireducible] Rat.mul Rat.inv Rat.add Rat.sub in
/-- witness for the C10 theorem: the demo run's exported datetime and
    current columns equal the merged series' channels. -/
theorem merged_channels_preserved_witness :
    ∃ tbl stats,
      runPipeline { outputFile := "result.xlsx" } [c10demo] = some (tbl, stats) ∧
        tbl.datetime =
          (sortByDatetime ([c10demo] : List (List Sample)).flatten).map Sample.t ∧
        tbl.current =
          (sortByDatetime ([c10demo] : List (List Sample)).flatten).map Sample.v := by
  cases hr : runPipeline { outputFile := "result.xlsx" } [c10demo] with
  | none => exact absurd hr (by decide)
  | some pr =>
      obtain ⟨h1, h2, _⟩ :=
        merged_channels_preserved { outputFile := "result.xlsx" } [c10demo]
          pr.1 pr.2 hr
      exact ⟨pr.1, pr.2, rfl, h1, h2⟩

/-- a loaded frame identical in content to the C1 demo; its smoothed series
    has exactly one peak and one trough. -/
def c4demo : List Sample :=
  [⟨0, 10⟩, ⟨300, 11⟩, ⟨600, 12⟩, ⟨900, 11⟩, ⟨1200, 10⟩, ⟨1500, 9⟩,
    ⟨1800, 10⟩, ⟨2100, 11⟩]

attribute [local semireducible] Rat.mul Rat.inv Rat.add Rat.sub in
/-- the claim's id is C4 (counterexample).  On a run whose smoothed series
    has exactly one peak and one trough the engine still completes and
    exports, and both mean-interval statistics come out as pandas NaN (none
    here): no InsufficientDataError - indeed no error of any kind - is
    reported anywhere; the NaN is written into the statistics table
    as-is. -/
theorem mean_interval_no_error_counterexample :
    (runPipeline { outputFile := "result.xlsx" } [c4demo]).map
        (fun p => (p.2.meanHighInterval, p.2.meanLowInterval)) =
      some (none, none) := by
  decide
